import Mathlib

/-!
Shallow embedding of `qmt/geometry/geo_data.py`: the registries `Geo1DData`,
`Geo2DData` and `Geo3DData` with their add/remove operations, the 2D
`build_order` bookkeeping, and the 3D `write_fcstd` export.

Conventions of the embedding:
* Python exceptions are modelled by returning the state reached at the raise
  site together with `some e` for the raised error; a normal return carries
  `none`.  In this module every `raise` happens before any mutation except for
  the `list.remove` call inside the 2D remove operations, whose partial
  mutation is modelled faithfully.
* Python `dict`s (string keys, insertion ordered, unique keys) are modelled as
  association lists; `d[k] = v` replaces the first binding in place or appends,
  `del d[k]` drops the binding.
* The external shapely objects are modelled by the only structure the module
  reads: a validity flag (plus an identifier so that distinct objects exist).
* Floating point endpoints of 1D parts are modelled as rationals; Python
  `sorted` on two elements swaps them exactly when the second is smaller.
-/

/-- The error kinds raised by `geo_data.py`.  The source raises `ValueError`
(resp. `AttributeError`) everywhere; the kinds are distinguished by raise
site, following the spec's names. -/
inductive GeoError where
  | duplicateName : String → GeoError
  | notFound : String → GeoError
  | invalidGeometry : String → GeoError
  | listRemove : String → GeoError
  | missingBlob : GeoError
deriving DecidableEq

/-- A Python `dict` with string keys, as an association list. -/
abbrev Dict (α : Type) := List (String × α)

/-- Python `k in d`. -/
def Dict.containsKey {α : Type} : Dict α → String → Bool
  | [], _ => false
  | p :: ps, k => if p.1 = k then true else Dict.containsKey ps k

/-- Python `d[k]` as an option. -/
def Dict.lookup {α : Type} : Dict α → String → Option α
  | [], _ => none
  | p :: ps, k => if p.1 = k then some p.2 else Dict.lookup ps k

/-- Python `d[k] = v`: replace the binding in place, or append a new one. -/
def Dict.insert {α : Type} : Dict α → String → α → Dict α
  | [], k, v => [(k, v)]
  | p :: ps, k, v => if p.1 = k then (k, v) :: ps else p :: Dict.insert ps k v

/-- Python `del d[k]`: drop the binding for `k`. -/
def Dict.erase {α : Type} (d : Dict α) (k : String) : Dict α :=
  d.filter fun p => ! decide (p.1 = k)

theorem Dict.containsKey_insert {α : Type} (d : Dict α) (k n : String) (v : α) :
    (d.insert k v).containsKey n = (d.containsKey n || decide (k = n)) := by
  induction d with
  | nil => simp [Dict.insert, Dict.containsKey]
  | cons p ps ih =>
    by_cases hpk : p.1 = k
    · simp only [Dict.insert, if_pos hpk, Dict.containsKey]
      by_cases hkn : k = n
      · have hpn : p.1 = n := hpk.trans hkn
        simp [hkn, hpn]
      · have hpn : ¬ p.1 = n := fun h => hkn (hpk.symm.trans h)
        simp [hkn, hpn]
    · simp only [Dict.insert, if_neg hpk, Dict.containsKey]
      by_cases hpn : p.1 = n
      · simp [hpn]
      · simp [hpn, ih]

theorem Dict.containsKey_erase {α : Type} (d : Dict α) (k n : String) :
    (d.erase k).containsKey n = (d.containsKey n && ! decide (k = n)) := by
  induction d with
  | nil => simp [Dict.erase, Dict.containsKey]
  | cons p ps ih =>
    by_cases hpk : p.1 = k
    · have hfilter : (Dict.erase (p :: ps) k) = Dict.erase ps k := by
        simp [Dict.erase, List.filter, hpk]
      rw [hfilter, ih]
      by_cases hkn : k = n
      · simp [hkn, Dict.containsKey]
      · have hpn : ¬ p.1 = n := fun h => hkn (hpk.symm.trans h)
        simp [hkn, Dict.containsKey, hpn]
    · have hfilter : (Dict.erase (p :: ps) k) = p :: Dict.erase ps k := by
        simp [Dict.erase, List.filter, hpk]
      rw [hfilter]
      by_cases hpn : p.1 = n
      · have hkn : ¬ k = n := fun h => hpk (hpn.trans h.symm)
        simp [Dict.containsKey, hpn, hkn]
      · simp [Dict.containsKey, hpn, ih]

theorem Dict.lookup_insert_self {α : Type} (d : Dict α) (k : String) (v : α) :
    (d.insert k v).lookup k = some v := by
  induction d with
  | nil => simp [Dict.insert, Dict.lookup]
  | cons p ps ih =>
    by_cases hpk : p.1 = k <;> simp [Dict.insert, Dict.lookup, hpk, ih]

/-- Number of occurrences of a name in a build-order list. -/
def countName : List String → String → Nat
  | [], _ => 0
  | x :: xs, n => (if x = n then 1 else 0) + countName xs n

/-- Python `list.remove`: drop the first occurrence. -/
def eraseFirst : List String → String → List String
  | [], _ => []
  | x :: xs, n => if x = n then xs else x :: eraseFirst xs n

theorem countName_append (l₁ l₂ : List String) (n : String) :
    countName (l₁ ++ l₂) n = countName l₁ n + countName l₂ n := by
  induction l₁ with
  | nil => simp [countName]
  | cons x xs ih => simp [countName, ih]; omega

theorem countName_pos_iff_mem (l : List String) (n : String) :
    0 < countName l n ↔ n ∈ l := by
  induction l with
  | nil => simp [countName]
  | cons x xs ih =>
    by_cases hx : x = n
    · simp [countName, hx]
    · have hnx : n ≠ x := fun h => hx h.symm
      simp [countName, hx, ih, hnx]

theorem countName_eraseFirst_self (l : List String) (n : String) (h : n ∈ l) :
    countName (eraseFirst l n) n + 1 = countName l n := by
  induction l with
  | nil => simp at h
  | cons x xs ih =>
    by_cases hx : x = n
    · simp [eraseFirst, countName, hx]; omega
    · have hmem : n ∈ xs := by
        rcases List.mem_cons.mp h with h' | h'
        · exact absurd h'.symm hx
        · exact h'
      simp [eraseFirst, countName, hx, ih hmem]

theorem countName_eraseFirst_ne (l : List String) (n m : String) (h : m ≠ n) :
    countName (eraseFirst l n) m = countName l m := by
  induction l with
  | nil => simp [eraseFirst]
  | cons x xs ih =>
    by_cases hx : x = n
    · simp [eraseFirst, countName, hx, h.symm, hx ▸ h.symm]
    · simp [eraseFirst, countName, hx, ih]

theorem eraseFirst_append_notMem (l₁ l₂ : List String) (n : String) (h : n ∉ l₁) :
    eraseFirst (l₁ ++ n :: l₂) n = l₁ ++ l₂ := by
  induction l₁ with
  | nil => simp [eraseFirst]
  | cons x xs ih =>
    have hx : x ≠ n := fun hxn => h (hxn ▸ List.mem_cons_self x xs)
    have hxs : n ∉ xs := fun hm => h (List.mem_cons_of_mem x hm)
    simp [eraseFirst, hx, ih hxs]

/-- Model of an external shapely `Polygon`: the module only reads `is_valid`. -/
structure Polygon where
  is_valid : Bool
  pid : Nat
deriving DecidableEq

/-- Model of an external shapely `LineString`; the module never reads its
validity flag (kept here to state that fact). -/
structure LineString where
  is_valid : Bool
  lid : Nat
deriving DecidableEq

/-- Model of an external `Part3D` object; the module only stores it. -/
structure Part3D where
  tid : Nat
deriving DecidableEq

/-- `Geo1DData`: registry of 1D parts, name to interval. -/
structure Geo1DData where
  parts : Dict (ℚ × ℚ)
deriving DecidableEq

/-- `Geo1DData.add_part`: sort the endpoints, guard duplicates, store. -/
def Geo1DData.add_part (g : Geo1DData) (part_name : String)
    (start_point end_point : ℚ) (overwrite : Bool) : Geo1DData × Option GeoError :=
  let se := if end_point < start_point then (end_point, start_point)
            else (start_point, end_point)
  if g.parts.containsKey part_name && ! overwrite then
    (g, some (.duplicateName part_name))
  else
    ({ parts := g.parts.insert part_name se }, none)

/-- `Geo1DData.remove_part`. -/
def Geo1DData.remove_part (g : Geo1DData) (part_name : String)
    (ignore_if_absent : Bool) : Geo1DData × Option GeoError :=
  if g.parts.containsKey part_name then
    ({ parts := g.parts.erase part_name }, none)
  else if ignore_if_absent then (g, none)
  else (g, some (.notFound part_name))

/-- `Geo2DData`: polygon parts, line-string edges, shared build order. -/
structure Geo2DData where
  parts : Dict Polygon
  edges : Dict LineString
  build_order : List String
deriving DecidableEq

/-- `Geo2DData.add_part`: validity check, duplicate guard, store and append
the name to `build_order` (also on overwrite). -/
def Geo2DData.add_part (g : Geo2DData) (part_name : String) (part : Polygon)
    (overwrite : Bool) : Geo2DData × Option GeoError :=
  if ! part.is_valid then
    (g, some (.invalidGeometry part_name))
  else if g.parts.containsKey part_name && ! overwrite then
    (g, some (.duplicateName part_name))
  else
    ({ g with parts := g.parts.insert part_name part,
              build_order := g.build_order ++ [part_name] }, none)

/-- `Geo2DData.remove_part`: delete from `parts`, then `list.remove` the first
occurrence of the name from `build_order` (which raises when the name is not
in the list — after the dict deletion already happened). -/
def Geo2DData.remove_part (g : Geo2DData) (part_name : String)
    (ignore_if_absent : Bool) : Geo2DData × Option GeoError :=
  if g.parts.containsKey part_name then
    if part_name ∈ g.build_order then
      ({ g with parts := g.parts.erase part_name,
                build_order := eraseFirst g.build_order part_name }, none)
    else
      ({ g with parts := g.parts.erase part_name }, some (.listRemove part_name))
  else if ignore_if_absent then (g, none)
  else (g, some (.notFound part_name))

/-- `Geo2DData.add_edge`: duplicate guard (no validity check), store and
append the name to `build_order` (also on overwrite). -/
def Geo2DData.add_edge (g : Geo2DData) (edge_name : String) (edge : LineString)
    (overwrite : Bool) : Geo2DData × Option GeoError :=
  if g.edges.containsKey edge_name && ! overwrite then
    (g, some (.duplicateName edge_name))
  else
    ({ g with edges := g.edges.insert edge_name edge,
              build_order := g.build_order ++ [edge_name] }, none)

/-- `Geo2DData.remove_edge`: symmetric to `remove_part` on `edges`. -/
def Geo2DData.remove_edge (g : Geo2DData) (edge_name : String)
    (ignore_if_absent : Bool) : Geo2DData × Option GeoError :=
  if g.edges.containsKey edge_name then
    if edge_name ∈ g.build_order then
      ({ g with edges := g.edges.erase edge_name,
                build_order := eraseFirst g.build_order edge_name }, none)
    else
      ({ g with edges := g.edges.erase edge_name }, some (.listRemove edge_name))
  else if ignore_if_absent then (g, none)
  else (g, some (.notFound edge_name))

/-- The state of `Geo2DData()` freshly constructed. -/
def fresh2D : Geo2DData := { parts := [], edges := [], build_order := [] }

/-- One call to a mutating `Geo2DData` method. -/
inductive Op2D where
  | addPart : String → Polygon → Bool → Op2D
  | removePart : String → Bool → Op2D
  | addEdge : String → LineString → Bool → Op2D
  | removeEdge : String → Bool → Op2D
deriving DecidableEq

/-- The `overwrite` flag of an add call (`false` for removes). -/
def Op2D.overwriteFlag : Op2D → Bool
  | .addPart _ _ ow => ow
  | .addEdge _ _ ow => ow
  | _ => false

/-- Run one method call, keeping the state it leaves behind (on a raise, the
state reached at the raise site). -/
def Geo2DData.exec (g : Geo2DData) (op : Op2D) : Geo2DData :=
  match op with
  | .addPart n p ow => (g.add_part n p ow).1
  | .removePart n ig => (g.remove_part n ig).1
  | .addEdge n e ow => (g.add_edge n e ow).1
  | .removeEdge n ig => (g.remove_edge n ig).1

/-- Run a sequence of method calls from a given state. -/
def Geo2DData.execList (g : Geo2DData) (ops : List Op2D) : Geo2DData :=
  ops.foldl Geo2DData.exec g

/-- `Geo3DData`: opaque 3D parts, a build order the class never maintains,
the inherited `label`, and the optionally attached serialized document. -/
structure Geo3DData where
  label : String
  build_order : List String
  parts : Dict Part3D
  serial_fcdoc : Option (List Nat)
deriving DecidableEq

/-- Models `pickle.loads` applied to the stored blob: `serial_fcdoc` is the
pickled form of a bytes object, and deserializing recovers those raw bytes. -/
def pickle_loads (blob : List Nat) : List Nat := blob

/-- `Geo3DData.add_part`: duplicate guard, store; `build_order` untouched. -/
def Geo3DData.add_part (g : Geo3DData) (part_name : String) (part : Part3D)
    (overwrite : Bool) : Geo3DData × Option GeoError :=
  if g.parts.containsKey part_name && ! overwrite then
    (g, some (.duplicateName part_name))
  else
    ({ g with parts := g.parts.insert part_name part }, none)

/-- `Geo3DData.remove_part`: delete from `parts`; `build_order` untouched. -/
def Geo3DData.remove_part (g : Geo3DData) (part_name : String)
    (ignore_if_absent : Bool) : Geo3DData × Option GeoError :=
  if g.parts.containsKey part_name then
    ({ g with parts := g.parts.erase part_name }, none)
  else if ignore_if_absent then (g, none)
  else (g, some (.notFound part_name))

/-- `Geo3DData.write_fcstd`: resolve the path (defaulting to
`<label>.fcstd`), deserialize the attached blob, write the bytes.  The result
is the returned path together with the bytes written to it; accessing a never
attached `serial_fcdoc` raises (`AttributeError` in the source). -/
def Geo3DData.write_fcstd (g : Geo3DData) (file_path : Option String) :
    Except GeoError (String × List Nat) :=
  let fp := match file_path with
    | none => g.label ++ ".fcstd"
    | some p => p
  match g.serial_fcdoc with
  | none => .error .missingBlob
  | some blob => .ok (fp, pickle_loads blob)

/-- How many registries of a 2D geometry hold the name: 0, 1 or 2. -/
def regCount (g : Geo2DData) (n : String) : Nat :=
  (g.parts.containsKey n).toNat + (g.edges.containsKey n).toNat

/-- Every registry entry has at least as many `build_order` occurrences. -/
def BuildOrderLB (g : Geo2DData) : Prop :=
  ∀ n, regCount g n ≤ countName g.build_order n

/-- `build_order` occurrences exceed registry entries by at most `k`. -/
def BuildOrderUB (g : Geo2DData) (k : Nat) : Prop :=
  ∀ n, countName g.build_order n ≤ regCount g n + k

/-- Number of add calls made with `overwrite=True` in a call sequence. -/
def countOwAdds (ops : List Op2D) : Nat :=
  (ops.filter Op2D.overwriteFlag).length

theorem countName_snoc (l : List String) (x n : String) :
    countName (l ++ [x]) n = countName l n + (if x = n then 1 else 0) := by
  rw [countName_append]; simp [countName]

theorem countName_eq_zero_of_notMem (l : List String) (n : String) (h : n ∉ l) :
    countName l n = 0 := by
  have hp : ¬ 0 < countName l n := fun hc => h ((countName_pos_iff_mem l n).mp hc)
  omega

theorem buildOrderLB_add_part (g : Geo2DData) (n : String) (p : Polygon)
    (ow : Bool) (h : BuildOrderLB g) : BuildOrderLB (g.add_part n p ow).1 := by
  unfold Geo2DData.add_part
  split_ifs with h1 h2
  · exact h
  · exact h
  · intro m
    have hm := h m
    simp only [regCount] at hm ⊢
    rw [Dict.containsKey_insert, countName_snoc]
    by_cases hnm : n = m
    · subst hnm
      rw [decide_eq_true rfl, if_pos rfl, Bool.or_true]
      have h1 : (true : Bool).toNat = 1 := rfl
      rw [h1]
      omega
    · rw [decide_eq_false hnm, if_neg hnm, Bool.or_false]
      omega

theorem buildOrderLB_add_edge (g : Geo2DData) (n : String) (e : LineString)
    (ow : Bool) (h : BuildOrderLB g) : BuildOrderLB (g.add_edge n e ow).1 := by
  unfold Geo2DData.add_edge
  split_ifs with h1
  · exact h
  · intro m
    have hm := h m
    simp only [regCount] at hm ⊢
    rw [Dict.containsKey_insert, countName_snoc]
    by_cases hnm : n = m
    · subst hnm
      rw [decide_eq_true rfl, if_pos rfl, Bool.or_true]
      have h1 : (true : Bool).toNat = 1 := rfl
      rw [h1]
      omega
    · rw [decide_eq_false hnm, if_neg hnm, Bool.or_false]
      omega

theorem buildOrderLB_remove_part (g : Geo2DData) (n : String)
    (ig : Bool) (h : BuildOrderLB g) : BuildOrderLB (g.remove_part n ig).1 := by
  unfold Geo2DData.remove_part
  split_ifs with h1 h2
  · intro m
    have hm := h m
    simp only [regCount] at hm ⊢
    rw [Dict.containsKey_erase]
    by_cases hnm : n = m
    · subst hnm
      have hcnt := countName_eraseFirst_self g.build_order n h2
      rw [decide_eq_true rfl, h1, Bool.not_true, Bool.and_false]
      have h0 : (false : Bool).toNat = 0 := rfl
      have ht : (true : Bool).toNat = 1 := rfl
      rw [h0]
      rw [h1, ht] at hm
      omega
    · rw [countName_eraseFirst_ne g.build_order n m (fun hmn => hnm hmn.symm)]
      rw [decide_eq_false hnm, Bool.not_false, Bool.and_true]
      exact hm
  · intro m
    have hm := h m
    simp only [regCount] at hm ⊢
    rw [Dict.containsKey_erase]
    have hle : (g.parts.containsKey m && ! decide (n = m)).toNat ≤
        (g.parts.containsKey m).toNat := by
      cases g.parts.containsKey m <;> cases decide (n = m) <;> simp
    omega
  · exact h
  · exact h

theorem buildOrderLB_remove_edge (g : Geo2DData) (n : String)
    (ig : Bool) (h : BuildOrderLB g) : BuildOrderLB (g.remove_edge n ig).1 := by
  unfold Geo2DData.remove_edge
  split_ifs with h1 h2
  · intro m
    have hm := h m
    simp only [regCount] at hm ⊢
    rw [Dict.containsKey_erase]
    by_cases hnm : n = m
    · subst hnm
      have hcnt := countName_eraseFirst_self g.build_order n h2
      rw [decide_eq_true rfl, h1, Bool.not_true, Bool.and_false]
      have h0 : (false : Bool).toNat = 0 := rfl
      have ht : (true : Bool).toNat = 1 := rfl
      rw [h0]
      rw [h1, ht] at hm
      omega
    · rw [countName_eraseFirst_ne g.build_order n m (fun hmn => hnm hmn.symm)]
      rw [decide_eq_false hnm, Bool.not_false, Bool.and_true]
      exact hm
  · intro m
    have hm := h m
    simp only [regCount] at hm ⊢
    rw [Dict.containsKey_erase]
    have hle : (g.edges.containsKey m && ! decide (n = m)).toNat ≤
        (g.edges.containsKey m).toNat := by
      cases g.edges.containsKey m <;> cases decide (n = m) <;> simp
    omega
  · exact h
  · exact h

/-- `exec` preserves the lower-bound invariant unconditionally. -/
theorem buildOrderLB_exec (g : Geo2DData) (op : Op2D) (h : BuildOrderLB g) :
    BuildOrderLB (g.exec op) := by
  cases op with
  | addPart n p ow => exact buildOrderLB_add_part g n p ow h
  | removePart n ig => exact buildOrderLB_remove_part g n ig h
  | addEdge n e ow => exact buildOrderLB_add_edge g n e ow h
  | removeEdge n ig => exact buildOrderLB_remove_edge g n ig h

theorem buildOrderUB_mono (g : Geo2DData) (k k' : Nat) (hkk : k ≤ k')
    (h : BuildOrderUB g k) : BuildOrderUB g k' :=
  fun m => le_trans (h m) (by omega)

theorem buildOrderUB_add_part (g : Geo2DData) (n : String) (p : Polygon)
    (ow : Bool) (k : Nat) (h : BuildOrderUB g k) :
    BuildOrderUB (g.add_part n p ow).1 (k + ow.toNat) := by
  unfold Geo2DData.add_part
  split_ifs with h1 h2
  · exact buildOrderUB_mono g k _ (by omega) h
  · exact buildOrderUB_mono g k _ (by omega) h
  · intro m
    have hm := h m
    simp only [regCount] at hm ⊢
    rw [Dict.containsKey_insert, countName_snoc]
    by_cases hnm : n = m
    · subst hnm
      rw [decide_eq_true rfl, if_pos rfl, Bool.or_true]
      have ht : (true : Bool).toNat = 1 := rfl
      rw [ht]
      cases hpc : g.parts.containsKey n
      · rw [hpc] at hm
        have h0 : (false : Bool).toNat = 0 := rfl
        rw [h0] at hm
        omega
      · rw [hpc] at hm
        rw [ht] at hm
        have how : ow = true := by
          cases hw : ow
          · exact absurd (by rw [hpc, hw]; rfl) h2
          · rfl
        rw [how]
        have ht2 : (true : Bool).toNat = 1 := rfl
        rw [ht2]
        omega
    · rw [decide_eq_false hnm, if_neg hnm, Bool.or_false]
      omega

theorem buildOrderUB_add_edge (g : Geo2DData) (n : String) (e : LineString)
    (ow : Bool) (k : Nat) (h : BuildOrderUB g k) :
    BuildOrderUB (g.add_edge n e ow).1 (k + ow.toNat) := by
  unfold Geo2DData.add_edge
  split_ifs with h1
  · exact buildOrderUB_mono g k _ (by omega) h
  · intro m
    have hm := h m
    simp only [regCount] at hm ⊢
    rw [Dict.containsKey_insert, countName_snoc]
    by_cases hnm : n = m
    · subst hnm
      rw [decide_eq_true rfl, if_pos rfl, Bool.or_true]
      have ht : (true : Bool).toNat = 1 := rfl
      rw [ht]
      cases hpc : g.edges.containsKey n
      · rw [hpc] at hm
        have h0 : (false : Bool).toNat = 0 := rfl
        rw [h0] at hm
        omega
      · rw [hpc] at hm
        rw [ht] at hm
        have how : ow = true := by
          cases hw : ow
          · exact absurd (by rw [hpc, hw]; rfl) h1
          · rfl
        rw [how]
        have ht2 : (true : Bool).toNat = 1 := rfl
        rw [ht2]
        omega
    · rw [decide_eq_false hnm, if_neg hnm, Bool.or_false]
      omega

theorem buildOrderUB_remove_part (g : Geo2DData) (n : String) (ig : Bool)
    (k : Nat) (h : BuildOrderUB g k) : BuildOrderUB (g.remove_part n ig).1 k := by
  unfold Geo2DData.remove_part
  split_ifs with h1 h2
  · intro m
    have hm := h m
    simp only [regCount] at hm ⊢
    rw [Dict.containsKey_erase]
    by_cases hnm : n = m
    · subst hnm
      have hcnt := countName_eraseFirst_self g.build_order n h2
      rw [decide_eq_true rfl, h1, Bool.not_true, Bool.and_false]
      have h0 : (false : Bool).toNat = 0 := rfl
      have ht : (true : Bool).toNat = 1 := rfl
      rw [h0]
      rw [h1, ht] at hm
      omega
    · rw [countName_eraseFirst_ne g.build_order n m (fun hmn => hnm hmn.symm)]
      rw [decide_eq_false hnm, Bool.not_false, Bool.and_true]
      exact hm
  · intro m
    have hm := h m
    simp only [regCount] at hm ⊢
    rw [Dict.containsKey_erase]
    by_cases hnm : n = m
    · subst hnm
      have hz := countName_eq_zero_of_notMem g.build_order n h2
      omega
    · rw [decide_eq_false hnm, Bool.not_false, Bool.and_true]
      exact hm
  · exact h
  · exact h

theorem buildOrderUB_remove_edge (g : Geo2DData) (n : String) (ig : Bool)
    (k : Nat) (h : BuildOrderUB g k) : BuildOrderUB (g.remove_edge n ig).1 k := by
  unfold Geo2DData.remove_edge
  split_ifs with h1 h2
  · intro m
    have hm := h m
    simp only [regCount] at hm ⊢
    rw [Dict.containsKey_erase]
    by_cases hnm : n = m
    · subst hnm
      have hcnt := countName_eraseFirst_self g.build_order n h2
      rw [decide_eq_true rfl, h1, Bool.not_true, Bool.and_false]
      have h0 : (false : Bool).toNat = 0 := rfl
      have ht : (true : Bool).toNat = 1 := rfl
      rw [h0]
      rw [h1, ht] at hm
      omega
    · rw [countName_eraseFirst_ne g.build_order n m (fun hmn => hnm hmn.symm)]
      rw [decide_eq_false hnm, Bool.not_false, Bool.and_true]
      exact hm
  · intro m
    have hm := h m
    simp only [regCount] at hm ⊢
    rw [Dict.containsKey_erase]
    by_cases hnm : n = m
    · subst hnm
      have hz := countName_eq_zero_of_notMem g.build_order n h2
      omega
    · rw [decide_eq_false hnm, Bool.not_false, Bool.and_true]
      exact hm
  · exact h
  · exact h

/-- `exec` grows the upper-bound budget only on an overwrite add. -/
theorem buildOrderUB_exec (g : Geo2DData) (op : Op2D) (k : Nat)
    (h : BuildOrderUB g k) :
    BuildOrderUB (g.exec op) (k + (op.overwriteFlag).toNat) := by
  cases op with
  | addPart n p ow => exact buildOrderUB_add_part g n p ow k h
  | removePart n ig =>
    exact buildOrderUB_mono _ k _ (by simp [Op2D.overwriteFlag])
      (buildOrderUB_remove_part g n ig k h)
  | addEdge n e ow => exact buildOrderUB_add_edge g n e ow k h
  | removeEdge n ig =>
    exact buildOrderUB_mono _ k _ (by simp [Op2D.overwriteFlag])
      (buildOrderUB_remove_edge g n ig k h)

theorem countOwAdds_cons (op : Op2D) (ops : List Op2D) :
    countOwAdds (op :: ops) = (op.overwriteFlag).toNat + countOwAdds ops := by
  cases hw : op.overwriteFlag
  · simp [countOwAdds, List.filter, hw]
  · simp [countOwAdds, List.filter, hw]
    omega

theorem invariants_execList : ∀ (ops : List Op2D) (g : Geo2DData) (k : Nat),
    BuildOrderLB g → BuildOrderUB g k →
    BuildOrderLB (g.execList ops) ∧
      BuildOrderUB (g.execList ops) (k + countOwAdds ops) := by
  intro ops
  induction ops with
  | nil =>
    intro g k hlb hub
    exact ⟨hlb, by simpa [countOwAdds, Geo2DData.execList] using hub⟩
  | cons op ops ih =>
    intro g k hlb hub
    have hstep := ih (g.exec op) (k + (op.overwriteFlag).toNat)
      (buildOrderLB_exec g op hlb) (buildOrderUB_exec g op k hub)
    have hexec : g.execList (op :: ops) = (g.exec op).execList ops := by
      simp [Geo2DData.execList, List.foldl]
    rw [hexec]
    refine ⟨hstep.1, buildOrderUB_mono _ _ _ ?_ hstep.2⟩
    have hc := countOwAdds_cons op ops
    omega

theorem buildOrderLB_fresh2D : BuildOrderLB fresh2D := by
  intro n
  simp [fresh2D, regCount, Dict.containsKey, countName]

theorem buildOrderUB_fresh2D : BuildOrderUB fresh2D 0 := by
  intro n
  simp [fresh2D, regCount, Dict.containsKey, countName]

theorem countOwAdds_eq_zero (ops : List Op2D)
    (h : ∀ op ∈ ops, op.overwriteFlag = false) : countOwAdds ops = 0 := by
  induction ops with
  | nil => simp [countOwAdds]
  | cons op ops ih =>
    have hop := h op (List.mem_cons_self op ops)
    have hrest : ∀ o ∈ ops, o.overwriteFlag = false :=
      fun o ho => h o (List.mem_cons_of_mem op ho)
    rw [countOwAdds_cons, hop, ih hrest]
    decide

theorem regCount_pos_cases (g : Geo2DData) (n : String) (h : 0 < regCount g n) :
    g.parts.containsKey n = true ∨ g.edges.containsKey n = true := by
  cases hbp : g.parts.containsKey n
  · cases hbe : g.edges.containsKey n
    · exfalso
      simp [regCount, hbp, hbe] at h
    · exact Or.inr rfl
  · exact Or.inl rfl

theorem regCount_pos_of_parts (g : Geo2DData) (n : String)
    (h : g.parts.containsKey n = true) : 0 < regCount g n := by
  simp only [regCount, h]
  have ht : (true : Bool).toNat = 1 := rfl
  rw [ht]
  omega

theorem regCount_pos_of_edges (g : Geo2DData) (n : String)
    (h : g.edges.containsKey n = true) : 0 < regCount g n := by
  simp only [regCount, h]
  have ht : (true : Bool).toNat = 1 := rfl
  rw [ht]
  omega

/-- Claim C1: starting from a fresh `Geo2DData`, after any sequence of
`add_part`/`add_edge`/`remove_part`/`remove_edge` calls, every key of the
`parts` or `edges` registry appears in `build_order`; a name never occurs in
`build_order` more often than the registries holding it plus the number of
`overwrite=True` adds performed; and when no call used `overwrite=True`,
every `build_order` name is a key of `parts` or `edges` and its number of
occurrences equals the number of registries holding it, so the keys of the
two registries partition the multiset of `build_order` names. -/
theorem geo2d_build_order_invariant (ops : List Op2D) :
    (∀ n, ((fresh2D.execList ops).parts.containsKey n = true ∨
        (fresh2D.execList ops).edges.containsKey n = true) →
        n ∈ (fresh2D.execList ops).build_order)
    ∧ (∀ n, countName (fresh2D.execList ops).build_order n ≤
        regCount (fresh2D.execList ops) n + countOwAdds ops)
    ∧ ((∀ op ∈ ops, op.overwriteFlag = false) →
        (∀ n, n ∈ (fresh2D.execList ops).build_order →
          (fresh2D.execList ops).parts.containsKey n = true ∨
          (fresh2D.execList ops).edges.containsKey n = true)
        ∧ ∀ n, countName (fresh2D.execList ops).build_order n =
            regCount (fresh2D.execList ops) n) := by
  obtain ⟨hlb, hub⟩ :=
    invariants_execList ops fresh2D 0 buildOrderLB_fresh2D buildOrderUB_fresh2D
  refine ⟨?_, ?_, ?_⟩
  · intro n hn
    have h1 := hlb n
    have hpos : 0 < regCount (fresh2D.execList ops) n := by
      rcases hn with hc | hc
      · exact regCount_pos_of_parts _ n hc
      · exact regCount_pos_of_edges _ n hc
    exact (countName_pos_iff_mem _ n).mp (lt_of_lt_of_le hpos h1)
  · intro n
    have h2 := hub n
    omega
  · intro hno
    have hz := countOwAdds_eq_zero ops hno
    rw [hz] at hub
    constructor
    · intro n hnbo
      have h1 := hlb n
      have h2 := hub n
      have hpos := (countName_pos_iff_mem _ n).mpr hnbo
      exact regCount_pos_cases _ n (by omega)
    · intro n
      have h1 := hlb n
      have h2 := hub n
      omega

/-- Witness for C1 at a concrete call sequence without overwrites. -/
theorem geo2d_build_order_invariant_witness :
    (∀ op ∈ [Op2D.addPart "a" ⟨true, 0⟩ false, Op2D.addEdge "b" ⟨true, 1⟩ false,
        Op2D.removePart "a" false], op.overwriteFlag = false) ∧
    countName (fresh2D.execList [Op2D.addPart "a" ⟨true, 0⟩ false,
        Op2D.addEdge "b" ⟨true, 1⟩ false,
        Op2D.removePart "a" false]).build_order "b" =
      regCount (fresh2D.execList [Op2D.addPart "a" ⟨true, 0⟩ false,
        Op2D.addEdge "b" ⟨true, 1⟩ false, Op2D.removePart "a" false]) "b" := by
  refine ⟨by decide, ?_⟩
  exact ((geo2d_build_order_invariant [Op2D.addPart "a" ⟨true, 0⟩ false,
    Op2D.addEdge "b" ⟨true, 1⟩ false,
    Op2D.removePart "a" false]).2.2 (by decide)).2 "b"

/-- Claim C2: an `overwrite=True` add on a name already in the targeted 2D
registry succeeds, replaces the stored value under that name, and appends the
name to `build_order` again — so when the name already occurs in
`build_order` the list gains a second occurrence instead of keeping the old
position alone. -/
theorem geo2d_overwrite_appends :
    (∀ (g : Geo2DData) (n : String) (p : Polygon),
      p.is_valid = true → g.parts.containsKey n = true →
      (g.add_part n p true).2 = none ∧
      ((g.add_part n p true).1).parts.lookup n = some p ∧
      ((g.add_part n p true).1).build_order = g.build_order ++ [n] ∧
      (n ∈ g.build_order →
        2 ≤ countName ((g.add_part n p true).1).build_order n))
    ∧ (∀ (g : Geo2DData) (n : String) (e : LineString),
      g.edges.containsKey n = true →
      (g.add_edge n e true).2 = none ∧
      ((g.add_edge n e true).1).edges.lookup n = some e ∧
      ((g.add_edge n e true).1).build_order = g.build_order ++ [n] ∧
      (n ∈ g.build_order →
        2 ≤ countName ((g.add_edge n e true).1).build_order n)) := by
  constructor
  · intro g n p hv hc
    have hres : g.add_part n p true =
        ({ g with parts := g.parts.insert n p,
                  build_order := g.build_order ++ [n] }, none) := by
      simp [Geo2DData.add_part, hv]
    rw [hres]
    refine ⟨rfl, Dict.lookup_insert_self _ _ _, rfl, ?_⟩
    intro hmem
    rw [countName_snoc, if_pos rfl]
    have hpos := (countName_pos_iff_mem g.build_order n).mpr hmem
    omega
  · intro g n e hc
    have hres : g.add_edge n e true =
        ({ g with edges := g.edges.insert n e,
                  build_order := g.build_order ++ [n] }, none) := by
      simp [Geo2DData.add_edge]
    rw [hres]
    refine ⟨rfl, Dict.lookup_insert_self _ _ _, rfl, ?_⟩
    intro hmem
    rw [countName_snoc, if_pos rfl]
    have hpos := (countName_pos_iff_mem g.build_order n).mpr hmem
    omega

/-- Witness for C2: overwriting part `a` duplicates it in `build_order`. -/
theorem geo2d_overwrite_appends_witness :
    (Geo2DData.add_part ⟨[("a", ⟨true, 0⟩)], [], ["a"]⟩ "a" ⟨true, 5⟩ true).2
        = none ∧
    2 ≤ countName ((Geo2DData.add_part ⟨[("a", ⟨true, 0⟩)], [], ["a"]⟩ "a"
        ⟨true, 5⟩ true).1).build_order "a" := by
  have h := geo2d_overwrite_appends.1 ⟨[("a", ⟨true, 0⟩)], [], ["a"]⟩ "a"
    ⟨true, 5⟩ rfl (by decide)
  exact ⟨h.1, h.2.2.2 (by decide)⟩

/-- Counterexample to claim C3 as stated: with the name `a` already in
`parts` and `overwrite=False`, `Geo2DData.add_part` applied to an invalid
polygon raises `InvalidGeometryError`, not `DuplicateNameError`. -/
theorem geo2d_duplicate_add_not_always_duplicate_error :
    (Geo2DData.add_part ⟨[("a", ⟨true, 0⟩)], [], ["a"]⟩ "a" ⟨false, 1⟩ false).2
        = some (GeoError.invalidGeometry "a") ∧
    (Geo2DData.add_part ⟨[("a", ⟨true, 0⟩)], [], ["a"]⟩ "a" ⟨false, 1⟩ false).2
        ≠ some (GeoError.duplicateName "a") := by
  decide

/-- Claim C3 (amended): for every registry, adding a name already present
with `overwrite=False` raises `DuplicateNameError` and leaves the instance
unchanged, provided the value passes the validity check where one exists
(`Geo2DData.add_part` with an invalid polygon raises `InvalidGeometryError`
instead, still leaving the state unchanged). -/
theorem add_duplicate_no_overwrite_raises :
    (∀ (g : Geo1DData) (n : String) (s e : ℚ), g.parts.containsKey n = true →
      g.add_part n s e false = (g, some (.duplicateName n)))
    ∧ (∀ (g : Geo2DData) (n : String) (p : Polygon), p.is_valid = true →
      g.parts.containsKey n = true →
      g.add_part n p false = (g, some (.duplicateName n)))
    ∧ (∀ (g : Geo2DData) (n : String) (e : LineString),
      g.edges.containsKey n = true →
      g.add_edge n e false = (g, some (.duplicateName n)))
    ∧ (∀ (g : Geo3DData) (n : String) (p : Part3D), g.parts.containsKey n = true →
      g.add_part n p false = (g, some (.duplicateName n))) := by
  refine ⟨?_, ?_, ?_, ?_⟩
  · intro g n s e hc
    simp [Geo1DData.add_part, hc]
  · intro g n p hv hc
    simp [Geo2DData.add_part, hv, hc]
  · intro g n e hc
    simp [Geo2DData.add_edge, hc]
  · intro g n p hc
    simp [Geo3DData.add_part, hc]

/-- Witness for the amended C3 at concrete duplicate names. -/
theorem add_duplicate_no_overwrite_raises_witness :
    Geo1DData.add_part ⟨[("a", (0, 1))]⟩ "a" 2 3 false
        = (⟨[("a", (0, 1))]⟩, some (.duplicateName "a")) ∧
    Geo2DData.add_part ⟨[("a", ⟨true, 0⟩)], [], ["a"]⟩ "a" ⟨true, 1⟩ false
        = (⟨[("a", ⟨true, 0⟩)], [], ["a"]⟩, some (.duplicateName "a")) ∧
    Geo2DData.add_edge ⟨[], [("c", ⟨true, 0⟩)], ["c"]⟩ "c" ⟨true, 1⟩ false
        = (⟨[], [("c", ⟨true, 0⟩)], ["c"]⟩, some (.duplicateName "c")) ∧
    Geo3DData.add_part ⟨"g3", [], [("p", ⟨0⟩)], none⟩ "p" ⟨1⟩ false
        = (⟨"g3", [], [("p", ⟨0⟩)], none⟩, some (.duplicateName "p")) := by
  refine ⟨?_, ?_, ?_, ?_⟩
  · exact add_duplicate_no_overwrite_raises.1 _ "a" 2 3 (by decide)
  · exact add_duplicate_no_overwrite_raises.2.1 _ "a" ⟨true, 1⟩ rfl (by decide)
  · exact add_duplicate_no_overwrite_raises.2.2.1 _ "c" ⟨true, 1⟩ (by decide)
  · exact add_duplicate_no_overwrite_raises.2.2.2 _ "p" ⟨1⟩ (by decide)

/-- Claim C4: `Geo2DData.add_part` rejects an invalid polygon with
`InvalidGeometryError` leaving the instance unchanged, while the outcome of
`Geo2DData.add_edge` depends only on the duplicate guard — never on any
validity of the line. -/
theorem geo2d_invalid_polygon_rejected :
    (∀ (g : Geo2DData) (n : String) (p : Polygon) (ow : Bool),
      p.is_valid = false →
      g.add_part n p ow = (g, some (.invalidGeometry n)))
    ∧ (∀ (g : Geo2DData) (n : String) (e : LineString) (ow : Bool),
      (g.add_edge n e ow).2 =
        (if g.edges.containsKey n && ! ow then some (.duplicateName n)
         else none)) := by
  constructor
  · intro g n p ow hv
    simp [Geo2DData.add_part, hv]
  · intro g n e ow
    unfold Geo2DData.add_edge
    split_ifs <;> rfl

/-- Witness for C4: an invalid polygon is rejected on the fresh state, while
an equally invalid line string is accepted by `add_edge`. -/
theorem geo2d_invalid_polygon_rejected_witness :
    Geo2DData.add_part fresh2D "a" ⟨false, 0⟩ false
        = (fresh2D, some (.invalidGeometry "a")) ∧
    (Geo2DData.add_edge fresh2D "a" ⟨false, 1⟩ false).2 = none := by
  constructor
  · exact geo2d_invalid_polygon_rejected.1 fresh2D "a" ⟨false, 0⟩ false rfl
  · rw [geo2d_invalid_polygon_rejected.2 fresh2D "a" ⟨false, 1⟩ false]
    decide

/-- Claim C5: `Geo3DData.add_part` and `Geo3DData.remove_part` never modify
`build_order`, whether the call succeeds or raises. -/
theorem geo3d_ops_preserve_build_order (g : Geo3DData) (n : String)
    (p : Part3D) (ow ig : Bool) :
    ((g.add_part n p ow).1).build_order = g.build_order ∧
    ((g.remove_part n ig).1).build_order = g.build_order := by
  constructor
  · unfold Geo3DData.add_part
    split_ifs <;> rfl
  · unfold Geo3DData.remove_part
    split_ifs <;> rfl

/-- Claim C6: with an attached serialized document blob, `write_fcstd`
returns the resolved path — `file_path`, or `<label>.fcstd` when `None` —
and writes to it exactly the bytes recovered by deserializing the blob;
without an attached blob it raises. -/
theorem geo3d_write_fcstd_spec :
    (∀ (g : Geo3DData) (fp : Option String) (blob : List Nat),
      g.serial_fcdoc = some blob →
      g.write_fcstd fp =
        .ok ((match fp with | none => g.label ++ ".fcstd" | some p => p),
          pickle_loads blob))
    ∧ (∀ (g : Geo3DData) (fp : Option String), g.serial_fcdoc = none →
      g.write_fcstd fp = .error .missingBlob) := by
  constructor
  · intro g fp blob hb
    simp only [Geo3DData.write_fcstd, hb]
  · intro g fp hb
    simp only [Geo3DData.write_fcstd, hb]

/-- Witness for C6: default path from the label, verbatim bytes; and the
missing-blob failure. -/
theorem geo3d_write_fcstd_spec_witness :
    Geo3DData.write_fcstd ⟨"doc", [], [], some [1, 2, 3]⟩ none
        = .ok ("doc.fcstd", [1, 2, 3]) ∧
    Geo3DData.write_fcstd ⟨"doc", [], [], none⟩ (some "out.fcstd")
        = .error .missingBlob := by
  constructor
  · rw [geo3d_write_fcstd_spec.1 ⟨"doc", [], [], some [1, 2, 3]⟩ none [1, 2, 3] rfl]
    rfl
  · exact geo3d_write_fcstd_spec.2 ⟨"doc", [], [], none⟩ (some "out.fcstd") rfl

/-- Claim C7: for every registry, removing an absent name with
`ignore_if_absent=False` raises `NotFoundError`, and with
`ignore_if_absent=True` returns normally with the instance unchanged. -/
theorem remove_absent_spec :
    (∀ (g : Geo1DData) (n : String), g.parts.containsKey n = false →
      g.remove_part n false = (g, some (.notFound n)) ∧
      g.remove_part n true = (g, none))
    ∧ (∀ (g : Geo2DData) (n : String), g.parts.containsKey n = false →
      g.remove_part n false = (g, some (.notFound n)) ∧
      g.remove_part n true = (g, none))
    ∧ (∀ (g : Geo2DData) (n : String), g.edges.containsKey n = false →
      g.remove_edge n false = (g, some (.notFound n)) ∧
      g.remove_edge n true = (g, none))
    ∧ (∀ (g : Geo3DData) (n : String), g.parts.containsKey n = false →
      g.remove_part n false = (g, some (.notFound n)) ∧
      g.remove_part n true = (g, none)) := by
  refine ⟨?_, ?_, ?_, ?_⟩
  · intro g n hc
    constructor <;> simp [Geo1DData.remove_part, hc]
  · intro g n hc
    constructor <;> simp [Geo2DData.remove_part, hc]
  · intro g n hc
    constructor <;> simp [Geo2DData.remove_edge, hc]
  · intro g n hc
    constructor <;> simp [Geo3DData.remove_part, hc]

/-- Witness for C7 on fresh instances, name `x` absent everywhere. -/
theorem remove_absent_spec_witness :
    (Geo1DData.remove_part ⟨[]⟩ "x" false = (⟨[]⟩, some (.notFound "x")) ∧
      Geo1DData.remove_part ⟨[]⟩ "x" true = (⟨[]⟩, none)) ∧
    (Geo2DData.remove_part fresh2D "x" false
        = (fresh2D, some (.notFound "x")) ∧
      Geo2DData.remove_part fresh2D "x" true = (fresh2D, none)) ∧
    (Geo2DData.remove_edge fresh2D "x" false
        = (fresh2D, some (.notFound "x")) ∧
      Geo2DData.remove_edge fresh2D "x" true = (fresh2D, none)) ∧
    (Geo3DData.remove_part ⟨"g3", [], [], none⟩ "x" false
        = (⟨"g3", [], [], none⟩, some (.notFound "x")) ∧
      Geo3DData.remove_part ⟨"g3", [], [], none⟩ "x" true
        = (⟨"g3", [], [], none⟩, none)) :=
  ⟨remove_absent_spec.1 ⟨[]⟩ "x" (by decide),
   remove_absent_spec.2.1 fresh2D "x" (by decide),
   remove_absent_spec.2.2.1 fresh2D "x" (by decide),
   remove_absent_spec.2.2.2 ⟨"g3", [], [], none⟩ "x" (by decide)⟩

/-- Claim C8: when the name is a `parts` key, `remove_part` deletes it from
`parts` and removes exactly the first occurrence of the name from
`build_order`, leaving later occurrences and all other entries in place;
`remove_edge` behaves symmetrically on `edges`. -/
theorem geo2d_remove_first_occurrence :
    (∀ (g : Geo2DData) (n : String) (l₁ l₂ : List String),
      g.parts.containsKey n = true → g.build_order = l₁ ++ n :: l₂ → n ∉ l₁ →
      g.remove_part n false =
        ({ g with parts := g.parts.erase n, build_order := l₁ ++ l₂ }, none)
      ∧ (Dict.erase g.parts n).containsKey n = false)
    ∧ (∀ (g : Geo2DData) (n : String) (l₁ l₂ : List String),
      g.edges.containsKey n = true → g.build_order = l₁ ++ n :: l₂ → n ∉ l₁ →
      g.remove_edge n false =
        ({ g with edges := g.edges.erase n, build_order := l₁ ++ l₂ }, none)
      ∧ (Dict.erase g.edges n).containsKey n = false) := by
  constructor
  · intro g n l₁ l₂ hc hbo hnl
    have hmem : n ∈ g.build_order := by
      rw [hbo]
      exact List.mem_append_right _ (List.mem_cons_self n l₂)
    have hef : eraseFirst g.build_order n = l₁ ++ l₂ := by
      rw [hbo]
      exact eraseFirst_append_notMem l₁ l₂ n hnl
    constructor
    · simp [Geo2DData.remove_part, hc, hmem, hef]
    · rw [Dict.containsKey_erase, hc, decide_eq_true rfl, Bool.not_true,
        Bool.and_false]
  · intro g n l₁ l₂ hc hbo hnl
    have hmem : n ∈ g.build_order := by
      rw [hbo]
      exact List.mem_append_right _ (List.mem_cons_self n l₂)
    have hef : eraseFirst g.build_order n = l₁ ++ l₂ := by
      rw [hbo]
      exact eraseFirst_append_notMem l₁ l₂ n hnl
    constructor
    · simp [Geo2DData.remove_edge, hc, hmem, hef]
    · rw [Dict.containsKey_erase, hc, decide_eq_true rfl, Bool.not_true,
        Bool.and_false]

/-- Witness for C8: removing part `a` from build order `[b, a, a]` keeps the
later duplicate, and the edge case symmetrically. -/
theorem geo2d_remove_first_occurrence_witness :
    Geo2DData.remove_part ⟨[("a", ⟨true, 0⟩)], [], ["b", "a", "a"]⟩ "a" false
        = (⟨[], [], ["b", "a"]⟩, none) ∧
    Geo2DData.remove_edge ⟨[], [("c", ⟨true, 0⟩)], ["c"]⟩ "c" false
        = (⟨[], [], []⟩, none) := by
  constructor
  · have h := (geo2d_remove_first_occurrence.1
      ⟨[("a", ⟨true, 0⟩)], [], ["b", "a", "a"]⟩ "a" ["b"] ["a"]
      (by decide) rfl (by decide)).1
    rw [h]
    decide
  · have h := (geo2d_remove_first_occurrence.2
      ⟨[], [("c", ⟨true, 0⟩)], ["c"]⟩ "c" [] []
      (by decide) rfl (by decide)).1
    rw [h]
    decide

/-- Claim C9: a successful `Geo1DData.add_part` on a fresh name stores the
interval `(min(start, end), max(start, end))` under that name. -/
theorem geo1d_add_part_normalizes (g : Geo1DData) (n : String) (s e : ℚ)
    (h : g.parts.containsKey n = false) :
    (g.add_part n s e false).2 = none ∧
    ((g.add_part n s e false).1).parts.lookup n = some (min s e, max s e) := by
  have hres : g.add_part n s e false =
      ({ parts := g.parts.insert n
          (if e < s then (e, s) else (s, e)) }, none) := by
    simp [Geo1DData.add_part, h]
  rw [hres]
  refine ⟨rfl, ?_⟩
  rw [Dict.lookup_insert_self]
  by_cases hes : e < s
  · rw [if_pos hes]
    simp [min_eq_right hes.le, max_eq_left hes.le]
  · have hse : s ≤ e := le_of_not_lt hes
    rw [if_neg hes]
    simp [min_eq_left hse, max_eq_right hse]

/-- Witness for C9: adding endpoints 5 and 2 stores the interval (2, 5). -/
theorem geo1d_add_part_normalizes_witness :
    ((Geo1DData.add_part ⟨[]⟩ "a" 5 2 false).1).parts.lookup "a"
        = some (2, 5) := by
  rw [(geo1d_add_part_normalizes ⟨[]⟩ "a" 5 2 (by decide)).2]
  norm_num

/-- Claim C10: `Geo2DData.add_part` checks polygon validity before the
duplicate-name guard, so an invalid polygon raises `InvalidGeometryError`
even when the name already exists and `overwrite=False`. -/
theorem geo2d_validity_before_duplicate (g : Geo2DData) (n : String)
    (p : Polygon) (hv : p.is_valid = false)
    (_hc : g.parts.containsKey n = true) :
    g.add_part n p false = (g, some (.invalidGeometry n)) := by
  simp [Geo2DData.add_part, hv]

/-- Witness for C10: the duplicate name `a` still yields the geometry
error when the polygon is invalid. -/
theorem geo2d_validity_before_duplicate_witness :
    Geo2DData.add_part ⟨[("a", ⟨true, 0⟩)], [], ["a"]⟩ "a" ⟨false, 1⟩ false
        = (⟨[("a", ⟨true, 0⟩)], [], ["a"]⟩, some (.invalidGeometry "a")) :=
  geo2d_validity_before_duplicate ⟨[("a", ⟨true, 0⟩)], [], ["a"]⟩ "a"
    ⟨false, 1⟩ rfl (by decide)
